import Mathlib

/-!
Verification of the jafar video data pipeline
(src/utils/dataloader.py and src/utils/preprocess_video_to_npy.py)
against its specification.

The Python functions are shallowly embedded as executable Lean
definitions: tensors become nested lists, uint8 pixels become `Fin 256`,
float32 normalized pixels become `ℚ`, the TensorFlow integer RNG becomes
an explicit quantization of a caller-supplied random source, and the
infinite repeated dataset becomes an explicit indexing function.
-/

set_option maxHeartbeats 1000000

namespace Jafar

/-! ### Data model for src/utils/dataloader.py

An episode tensor has shape (length, image_h, image_w, image_c) and
dtype uint8 (it is produced by `tf.io.decode_raw(..., out_type=tf.uint8)`).
We embed one frame as an h × w × c nested grid of `Fin 256` values. -/

/-- One raw video frame: rows × columns × channels of uint8 pixel values. -/
abbrev Frame := List (List (List (Fin 256)))

/-- A raw episode: a dynamic-length list of frames. -/
abbrev Episode := List Frame

/-- A normalized frame, after `tf.cast(seq, tf.float32) / 255.0`. -/
abbrev NFrame := List (List (List ℚ))

/-- `frameHasShape h w c f` says the nested grid `f` has shape (h, w, c). -/
def frameHasShape (h w c : Nat) (f : Frame) : Bool :=
  f.length == h &&
    f.all (fun row => row.length == w && row.all (fun px => px.length == c))

/-- Shape of a processed window: (n, h, w, c) over normalized pixels. -/
def windowHasShape (n h w c : Nat) (win : List NFrame) : Bool :=
  win.length == n &&
    win.all (fun f =>
      f.length == h &&
        f.all (fun row => row.length == w && row.all (fun px => px.length == c)))

/-! ### The window sampler (_tf_process_episode) -/

/-- Model of `tf.random.uniform(shape=(), minval=0, maxval=maxval, dtype=tf.int32)`:
the draw is the quantization `r % maxval` of an underlying random source `r`,
so it lies in `[0, maxval)` and, for a uniform source, is uniform there. -/
def tf_random_uniform (maxval : Nat) (r : Nat) : Nat := r % maxval

/-- `max_start_idx = current_episode_len - seq_len` (line 30 of dataloader.py);
the filter stage guarantees `seq_len ≤ current_episode_len` upstream. -/
def max_start_idx (episode_len seq_len : Nat) : Nat := episode_len - seq_len

/-- The random start offset drawn at lines 32-34 of dataloader.py:
uniform over `[0, max_start_idx + 1)`. -/
def sample_start (episode_len seq_len r : Nat) : Nat :=
  tf_random_uniform (max_start_idx episode_len seq_len + 1) r

/-- Pixel normalization `tf.cast(seq, tf.float32) / 255.0` (line 38),
applied to one frame. -/
def normalize_frame (f : Frame) : NFrame :=
  f.map (fun row => row.map (fun px => px.map (fun v => (v.val : ℚ) / 255)))

/-- Embedding of `_tf_process_episode` given the drawn start index:
take the slice `episode_tensor[start_idx : start_idx + seq_len]` and
divide every uint8 value by 255 into a rational in [0, 1]. -/
def tf_process_episode (episode_tensor : Episode) (seq_len : Nat)
    (start_idx : Nat) : List NFrame :=
  ((episode_tensor.drop start_idx).take seq_len).map normalize_frame

/-! ### Filtering and the per-file dataset (_create_processed_dataset_from_file) -/

/-- Embedding of `filter_short_episodes` (lines 76-77): keep an episode
iff its frame count is at least `seq_len`. -/
def filter_short_episodes (seq_len : Nat) (episode_tensor : Episode) : Bool :=
  decide (seq_len ≤ episode_tensor.length)

/-- Embedding of `_create_processed_dataset_from_file` after parsing:
filter out short episodes, then map the window sampler over the stream,
each element drawing its own random start from the source `rng`. -/
def create_processed_dataset (episodes : List Episode) (seq_len : Nat)
    (rng : Nat → Nat) : List (List NFrame) :=
  (episodes.filter (filter_short_episodes seq_len)).enum.map
    (fun p => tf_process_episode p.2 seq_len (sample_start p.2.length seq_len (rng p.1)))

/-! ### Sharding (tf.data.Dataset.shard at line 127) -/

/-- `shardFrom N r i xs` keeps the elements of `xs` whose position,
counted from `i`, is congruent to `r` modulo `N`. -/
def shardFrom {α : Type*} (num_shards index : Nat) : Nat → List α → List α
  | _, [] => []
  | i, x :: xs =>
    if i % num_shards = index then x :: shardFrom num_shards index (i + 1) xs
    else shardFrom num_shards index (i + 1) xs

/-- Embedding of `dataset.shard(num_shards, index)`: keep the elements
whose index in the dataset is congruent to `index` modulo `num_shards`. -/
def shard {α : Type*} (num_shards index : Nat) (xs : List α) : List α :=
  shardFrom num_shards index 0 xs

/-! ### get_dataloader configuration checks (lines 109-119) -/

/-- The two fatal startup errors of `get_dataloader`: the `ValueError`
raised for an empty path list (line 110) and the `AssertionError` for a
batch size not divisible by the process count (lines 115-118). -/
inductive DataloaderError
  | emptyPaths
  | notDivisible
  deriving DecidableEq, Repr

/-- The configuration `get_dataloader` proceeds with when its
preconditions hold: the per-process batch size and this process's shard. -/
structure Dataloader where
  per_process_batch_size : Nat
  shard_paths : List String
  deriving DecidableEq, Repr

instance {ε α : Type*} [DecidableEq ε] [DecidableEq α] : DecidableEq (Except ε α) :=
  fun x y =>
  match x, y with
  | .error a, .error b =>
    if h : a = b then .isTrue (by rw [h]) else .isFalse (by simp [h])
  | .error _, .ok _ => .isFalse (by simp)
  | .ok _, .error _ => .isFalse (by simp)
  | .ok a, .ok b =>
    if h : a = b then .isTrue (by rw [h]) else .isFalse (by simp [h])

/-- Embedding of the pre-flight part of `get_dataloader`: the empty-list
check, the divisibility assertion, the division into
`per_process_batch_size`, and the shard taken by this process — all
before any dataset is constructed from file contents. -/
def get_dataloader (tfrecord_paths : List String) (global_batch_size : Nat)
    (process_id num_processes : Nat) : Except DataloaderError Dataloader :=
  if tfrecord_paths = [] then .error .emptyPaths
  else if global_batch_size % num_processes ≠ 0 then .error .notDivisible
  else .ok
    { per_process_batch_size := global_batch_size / num_processes
      shard_paths := shard num_processes process_id tfrecord_paths }

/-! ### Repeat and batch (lines 142-143) -/

/-- The stream after `dataset.repeat(None)`: the finite per-epoch list of
windows `ws`, repeated forever; element `i` of the infinite stream is
element `i % ws.length` of `ws`. -/
def repeatStream (ws : List (List NFrame)) (i : Nat) : List NFrame :=
  ws.getD (i % ws.length) []

/-- The `n`-th batch emitted by
`dataset.batch(per_process_batch_size, drop_remainder=True)` applied to
the repeated stream: consecutive elements
`n*b, ..., n*b + (b-1)` of the infinite stream. -/
def emittedBatch (ws : List (List NFrame)) (per_process_batch_size n : Nat) :
    List (List NFrame) :=
  (List.range per_process_batch_size).map
    (fun j => repeatStream ws (n * per_process_batch_size + j))

/-- The semantics of `batch(b, drop_remainder=True)` on a finite stream:
group consecutive runs of `b` elements, discarding the trailing partial
group. -/
def batchDropRemainder {α : Type*} (b : Nat) (xs : List α) : List (List α) :=
  if h : 0 < b ∧ b ≤ xs.length then
    xs.take b :: batchDropRemainder b (xs.drop b)
  else []
termination_by xs.length
decreasing_by simp only [List.length_drop]; omega

/-! ### Embedding of src/utils/preprocess_video_to_npy.py -/

/-- The byte buffer written by ffmpeg to the rawvideo pipe. -/
abbrev ByteBuf := List (Fin 256)

/-- A persisted numpy array: its shape and its flat uint8 contents. -/
structure NpyArray where
  shape : List Nat
  data : ByteBuf
  deriving DecidableEq, Repr

/-- File paths, modelled as character lists. -/
abbrev FsPath := List Char

/-- Model of `os.path.basename`: the component after the last '/'. -/
def basename (p : FsPath) : FsPath := (p.splitOn '/').getLastD []

/-- Index of the last '.' in `cs`, if any. -/
def lastDotIdx (cs : List Char) : Option Nat :=
  ((cs.enum.filter (fun p => p.2 == '.')).map (fun p => p.1)).getLast?

/-- Model of `os.path.splitext(s)[0]` on a bare file name: cut at the
last dot, unless every character before that dot is itself a dot
(so ".bashrc" stays whole, as in Python). -/
def splitextRoot (cs : FsPath) : FsPath :=
  match lastDotIdx cs with
  | none => cs
  | some i => if (cs.take i).all (fun ch => ch == '.') then cs else cs.take i

/-- Model of `os.path.join(a, b)` for a relative second component. -/
def joinPath (a b : FsPath) : FsPath := a ++ '/' :: b

/-- The output file path computed at lines 38-40 of
preprocess_video_to_npy.py:
`os.path.join(output_path, os.path.splitext(os.path.basename(in_filename))[0] + ".npy")`. -/
def output_file (output_path in_filename : FsPath) : FsPath :=
  joinPath output_path (splitextRoot (basename in_filename) ++ ".npy".data)

/-- Embedding of `preprocess_video` (lines 18-50). The ffmpeg transcode is
the environment `ffmpeg_run`, taking the input path to either the decoded
byte buffer or a raised error. Every exception inside the task — a raised
transcode error, the ZeroDivisionError when `frame_size` is zero, the
reshape ValueError when the byte count is not `n_frames * frame_size` —
is caught by the task's own `except` handler and becomes the outcome
`(in_filename, False)`. The `Option` component is the np.save write
performed on success: target path and saved array. -/
def preprocess_video (ffmpeg_run : FsPath → Except String ByteBuf)
    (in_filename : FsPath) (output_path : FsPath)
    (target_width target_height : Nat) :
    (FsPath × Bool) × Option (FsPath × NpyArray) :=
  match ffmpeg_run in_filename with
  | .error _ => ((in_filename, false), none)
  | .ok out =>
    let frame_size := target_height * target_width * 3
    if frame_size = 0 then ((in_filename, false), none)
    else
      let n_frames := out.length / frame_size
      if out.length = n_frames * frame_size then
        ((in_filename, true),
          some (output_file output_path in_filename,
            ⟨[n_frames, target_height, target_width, 3], out⟩))
      else ((in_filename, false), none)

/-- The per-run output directory computed at lines 62-65 of `main`:
`os.path.join(args.output_path, f"\x7bfps\x7dfps_\x7bwidth\x7dx\x7bheight\x7d")`. -/
def run_output_path (output_root : FsPath)
    (target_fps target_width target_height : Nat) : FsPath :=
  joinPath output_root
    (Nat.toDigits 10 target_fps ++ "fps_".data ++ Nat.toDigits 10 target_width
      ++ "x".data ++ Nat.toDigits 10 target_height)

/-- The pool phase of `main` (lines 85-88): every input is an independent
task; all outcomes are collected, in order, after all tasks finish. -/
def run_pool (ffmpeg_run : FsPath → Except String ByteBuf)
    (inputs : List FsPath) (output_path : FsPath)
    (target_width target_height : Nat) :
    List ((FsPath × Bool) × Option (FsPath × NpyArray)) :=
  inputs.map (fun f => preprocess_video ffmpeg_run f output_path target_width target_height)

/-- Lines 92-98 of `main`: the failure manifest is the sublist of outcomes
whose flag is False. -/
def failed_videos (results : List (FsPath × Bool)) : List (FsPath × Bool) :=
  results.filter (fun result => !result.2)

/-- The manifest is written to `<output_path>/failed_videos.json` (line 97). -/
def failed_videos_path (output_path : FsPath) : FsPath :=
  joinPath output_path "failed_videos.json".data

/-! ## Supporting lemmas -/

theorem shardFrom_eq_enumFrom_filter {α : Type*} (num_shards index : Nat) :
    ∀ (i : Nat) (xs : List α),
      shardFrom num_shards index i xs
        = ((List.enumFrom i xs).filter (fun p => p.1 % num_shards == index)).map
            Prod.snd := by
  intro i xs
  induction xs generalizing i with
  | nil => simp [shardFrom]
  | cons x xs ih =>
    by_cases h : i % num_shards = index <;>
      simp [shardFrom, List.enumFrom, h, ih (i + 1)]

theorem shardFrom_count_sum {α : Type*} [DecidableEq α] {num_shards : Nat}
    (hN : 0 < num_shards) (x : α) :
    ∀ (i : Nat) (xs : List α),
      ∑ r ∈ Finset.range num_shards, (shardFrom num_shards r i xs).count x
        = xs.count x := by
  intro i xs
  induction xs generalizing i with
  | nil => simp [shardFrom]
  | cons y ys ih =>
    have hmem : i % num_shards ∈ Finset.range num_shards :=
      Finset.mem_range.mpr (Nat.mod_lt _ hN)
    have hsplit : ∀ r, (shardFrom num_shards r i (y :: ys)).count x
        = (if i % num_shards = r then (if y == x then 1 else 0) else 0)
          + (shardFrom num_shards r (i + 1) ys).count x := by
      intro r
      by_cases hr : i % num_shards = r
      · simp [shardFrom, hr, List.count_cons, Nat.add_comm]
      · simp [shardFrom, hr]
    calc ∑ r ∈ Finset.range num_shards, (shardFrom num_shards r i (y :: ys)).count x
        = ∑ r ∈ Finset.range num_shards,
            ((if i % num_shards = r then (if y == x then 1 else 0) else 0)
              + (shardFrom num_shards r (i + 1) ys).count x) :=
          Finset.sum_congr rfl (fun r _ => hsplit r)
      _ = (if y == x then 1 else 0) + ys.count x := by
          rw [Finset.sum_add_distrib, ih (i + 1), Finset.sum_ite_eq, if_pos hmem]
      _ = (y :: ys).count x := by rw [List.count_cons, Nat.add_comm]

theorem batchDropRemainder_mem_length {α : Type*} (b : Nat) (xs : List α) :
    ∀ bt ∈ batchDropRemainder b xs, bt.length = b := by
  induction xs using batchDropRemainder.induct b with
  | case1 x hcond ih =>
    rw [batchDropRemainder, dif_pos hcond]
    intro bt hbt
    rcases List.mem_cons.mp hbt with h1 | h1
    · subst h1
      simp only [List.length_take]
      omega
    · exact ih bt h1
  | case2 x hcond =>
    rw [batchDropRemainder, dif_neg hcond]
    simp

theorem repeatStream_mem (ws : List (List NFrame)) (hws : ws ≠ []) (i : Nat) :
    repeatStream ws i ∈ ws := by
  have hlen : 0 < ws.length := List.length_pos.mpr hws
  have hlt : i % ws.length < ws.length := Nat.mod_lt _ hlen
  rw [repeatStream, List.getD_eq_getElem ws [] hlt]
  exact List.getElem_mem hlt

theorem normalize_frame_shape (h w c : Nat) (f : Frame)
    (hf : frameHasShape h w c f = true) :
    (normalize_frame f).length = h ∧
    ∀ row ∈ normalize_frame f, row.length = w ∧ ∀ px ∈ row, px.length = c := by
  simp only [frameHasShape, Bool.and_eq_true, beq_iff_eq, List.all_eq_true] at hf
  obtain ⟨hlen, hrows⟩ := hf
  refine ⟨by simp [normalize_frame, hlen], ?_⟩
  intro row hrow
  rcases List.mem_map.mp hrow with ⟨r, hr, rfl⟩
  obtain ⟨hrw, hpx⟩ := hrows r hr
  refine ⟨by simp [hrw], ?_⟩
  intro px hpxm
  rcases List.mem_map.mp hpxm with ⟨p, hp, rfl⟩
  simp [hpx p hp]

theorem countP_mod_range (M k : Nat) (hk : k < M) :
    ∀ m, (List.range (M * m)).countP (fun r => r % M == k) = m := by
  intro m
  induction m with
  | zero => simp
  | succ m ih =>
    have hMm : M * (m + 1) = M * m + M := by ring
    rw [hMm, List.range_add, List.countP_append, ih, List.countP_map]
    have hcong : (List.range M).countP ((fun r => r % M == k) ∘ (fun x => M * m + x))
        = (List.range M).countP (fun r => r == k) := by
      apply List.countP_congr
      intro r hr
      have hrM : r < M := List.mem_range.mp hr
      simp only [Function.comp_apply, Nat.add_comm (M * m) r,
        Nat.add_mul_mod_self_left, Nat.mod_eq_of_lt hrM]
    rw [hcong]
    have hcount : (List.range M).countP (fun r => r == k) = (List.range M).count k :=
      rfl
    rw [hcount, List.count_eq_one_of_mem (List.nodup_range M) (List.mem_range.mpr hk)]

/-! ## Claim theorems -/

/-- C1: the shard of rank `index` is exactly the elements of the path
list whose index is congruent to `index` modulo the shard count; across
the ranks `0..N-1` every occurrence of every path lands in exactly one
shard (the per-shard counts sum back to the whole list), and for a
duplicate-free path list distinct ranks' shards are disjoint. -/
theorem C1_shard_partition {α : Type*} [DecidableEq α]
    (paths : List α) (num_shards : Nat) (hN : 0 < num_shards) :
    (∀ index, shard num_shards index paths
        = (paths.enum.filter (fun p => p.1 % num_shards == index)).map Prod.snd) ∧
    (∀ x, ∑ r ∈ Finset.range num_shards, (shard num_shards r paths).count x
        = paths.count x) ∧
    (paths.Nodup → ∀ r s, r < num_shards → s < num_shards → r ≠ s →
      ∀ x, x ∈ shard num_shards r paths → x ∉ shard num_shards s paths) := by
  refine ⟨?_, ?_, ?_⟩
  · intro index
    rw [shard, shardFrom_eq_enumFrom_filter, List.enum]
  · intro x
    exact shardFrom_count_sum hN x 0 paths
  · intro hnd r s hr hs hrs x hxr hxs
    have h1 : 1 ≤ (shard num_shards r paths).count x := List.one_le_count_iff.mpr hxr
    have h2 : 1 ≤ (shard num_shards s paths).count x := List.one_le_count_iff.mpr hxs
    have hsum : (shard num_shards r paths).count x + (shard num_shards s paths).count x
        ≤ ∑ t ∈ Finset.range num_shards, (shard num_shards t paths).count x :=
      Finset.add_le_sum (f := fun t => (shard num_shards t paths).count x)
        (fun t _ => Nat.zero_le _)
        (Finset.mem_range.mpr hr) (Finset.mem_range.mpr hs) hrs
    have hone : paths.count x ≤ 1 := List.nodup_iff_count_le_one.mp hnd x
    have hts := shardFrom_count_sum hN x 0 paths
    simp only [shard] at h1 h2 hsum
    omega

/-- C1 witness: a concrete 3-element list sharded over 2 ranks. -/
theorem C1_shard_partition_witness :
    shard 2 0 [10, 20, 30] = [10, 30] ∧ shard 2 1 [10, 20, 30] = [20] ∧
    (∀ x, ∑ r ∈ Finset.range 2, (shard 2 r [10, 20, 30]).count x
        = [10, 20, 30].count x) :=
  ⟨by decide, by decide, (C1_shard_partition [10, 20, 30] 2 (by decide)).2.1⟩

/-- C2: given at least one episode of length at least `seq_len`, the
per-process window list is non-empty, so the stream built by
`repeat(None)` followed by `batch(b, drop_remainder=True)` emits, for
every `n`, an `n`-th batch of exactly `b` windows drawn from that window
list — no partial batch, and the stream never terminates; moreover the
batch stage's finite semantics only ever emits groups of exactly `b`
windows, any trailing remainder being discarded, never emitted. -/
theorem C2_full_batches_infinite_stream
    (episodes : List Episode) (seq_len : Nat) (rng : Nat → Nat)
    (b : Nat) (hb : 0 < b)
    (e : Episode) (he : e ∈ episodes) (hlen : seq_len ≤ e.length) :
    (∀ n, (emittedBatch (create_processed_dataset episodes seq_len rng) b n).length
        = b) ∧
    (∀ n w, w ∈ emittedBatch (create_processed_dataset episodes seq_len rng) b n →
      w ∈ create_processed_dataset episodes seq_len rng) ∧
    (∀ (xs : List (List NFrame)) (bt : List (List NFrame)),
      bt ∈ batchDropRemainder b xs → bt.length = b) := by
  have hne : create_processed_dataset episodes seq_len rng ≠ [] := by
    have hmem : e ∈ episodes.filter (filter_short_episodes seq_len) :=
      List.mem_filter.mpr ⟨he, by simp [filter_short_episodes, hlen]⟩
    have hfil := List.ne_nil_of_mem hmem
    intro hnil
    rw [create_processed_dataset] at hnil
    simp only [List.map_eq_nil_iff, List.enum_eq_nil] at hnil
    exact hfil hnil
  refine ⟨?_, ?_, ?_⟩
  · intro n
    simp [emittedBatch]
  · intro n w hw
    rcases List.mem_map.mp hw with ⟨j, _, rfl⟩
    exact repeatStream_mem _ hne _
  · exact fun xs bt => batchDropRemainder_mem_length b xs bt

/-- C2 witness: a one-episode corpus, window length 1, batch size 1. -/
theorem C2_full_batches_infinite_stream_witness :
    (∀ n, (emittedBatch
        (create_processed_dataset [[[[[(0 : Fin 256)]]]]] 1 (fun _ => 0)) 1 n).length
        = 1) ∧
    (∀ n w, w ∈ emittedBatch
        (create_processed_dataset [[[[[(0 : Fin 256)]]]]] 1 (fun _ => 0)) 1 n →
      w ∈ create_processed_dataset [[[[[(0 : Fin 256)]]]]] 1 (fun _ => 0)) ∧
    (∀ (xs : List (List NFrame)) (bt : List (List NFrame)),
      bt ∈ batchDropRemainder 1 xs → bt.length = 1) :=
  C2_full_batches_infinite_stream [[[[[(0 : Fin 256)]]]]] 1 (fun _ => 0) 1
    (by decide) [[[[(0 : Fin 256)]]]] (by decide) (by decide)

/-- C4: for an episode of length at least `seq_len` and an in-range start
offset, the sampled window has shape exactly (seq_len, h, w, c), and
every pixel is an 8-bit unsigned input value divided by 255, hence lies
in [0, 1]. -/
theorem C4_window_shape_and_pixel_range
    (ep : Episode) (seq_len h w c : Nat) (start : Nat)
    (hshape : ∀ f ∈ ep, frameHasShape h w c f = true)
    (hlen : seq_len ≤ ep.length)
    (hstart : start ≤ ep.length - seq_len) :
    windowHasShape seq_len h w c (tf_process_episode ep seq_len start) = true ∧
    (∀ f ∈ tf_process_episode ep seq_len start, ∀ row ∈ f, ∀ px ∈ row, ∀ q ∈ px,
      (0 ≤ q ∧ q ≤ 1) ∧ ∃ v : Fin 256, q = (v.val : ℚ) / 255) := by
  have hwlen : (tf_process_episode ep seq_len start).length = seq_len := by
    simp only [tf_process_episode, List.length_map, List.length_take,
      List.length_drop]
    omega
  have hmem_src : ∀ g ∈ (ep.drop start).take seq_len, g ∈ ep := fun g hg =>
    List.mem_of_mem_drop (List.mem_of_mem_take hg)
  constructor
  · simp only [windowHasShape, Bool.and_eq_true, beq_iff_eq, List.all_eq_true]
    refine ⟨hwlen, ?_⟩
    intro f hf
    rw [tf_process_episode] at hf
    rcases List.mem_map.mp hf with ⟨g, hg, rfl⟩
    obtain ⟨h1, h2⟩ := normalize_frame_shape h w c g (hshape g (hmem_src g hg))
    refine ⟨h1, ?_⟩
    intro row hrow
    obtain ⟨h3, h4⟩ := h2 row hrow
    exact ⟨h3, fun px hpx => h4 px hpx⟩
  · intro f hf row hrow px hpx q hq
    rw [tf_process_episode] at hf
    rcases List.mem_map.mp hf with ⟨g, hg, rfl⟩
    rw [normalize_frame] at hrow
    rcases List.mem_map.mp hrow with ⟨r, hr, rfl⟩
    rcases List.mem_map.mp hpx with ⟨p, hp, rfl⟩
    rcases List.mem_map.mp hq with ⟨v, hv, rfl⟩
    refine ⟨⟨by positivity, ?_⟩, ⟨v, rfl⟩⟩
    rw [div_le_one (by norm_num)]
    have hv255 : (v : Nat) ≤ 255 := Nat.lt_succ_iff.mp v.isLt
    exact_mod_cast hv255

/-- C4 witness: a single 1×1×1 frame of value 0, seq_len 1, start 0. -/
theorem C4_window_shape_and_pixel_range_witness :
    windowHasShape 1 1 1 1
        (tf_process_episode [[[[(0 : Fin 256)]]]] 1 0) = true ∧
    (∀ f ∈ tf_process_episode [[[[(0 : Fin 256)]]]] 1 0, ∀ row ∈ f, ∀ px ∈ row,
      ∀ q ∈ px, (0 ≤ q ∧ q ≤ 1) ∧ ∃ v : Fin 256, q = (v.val : ℚ) / 255) :=
  C4_window_shape_and_pixel_range [[[[(0 : Fin 256)]]]] 1 1 1 1 0
    (by decide) (by decide) (by decide)

/-- C5: the start offset is always in `[0, episode_len - seq_len]`, every
offset in that range is drawn for some state of the random source, the
draw is uniform (over any window of `(episode_len - seq_len + 1) * m`
consecutive source values each offset occurs exactly `m` times), and the
produced window is the contiguous slice `[start, start + seq_len)` of the
episode, frame by frame. -/
theorem C5_uniform_start_and_contiguous_slice
    (ep : Episode) (seq_len : Nat) (hlen : seq_len ≤ ep.length) :
    (∀ r, sample_start ep.length seq_len r ≤ ep.length - seq_len) ∧
    (∀ k, k ≤ ep.length - seq_len → ∃ r, sample_start ep.length seq_len r = k) ∧
    (∀ k, k ≤ ep.length - seq_len → ∀ m,
      (List.range ((ep.length - seq_len + 1) * m)).countP
        (fun r => sample_start ep.length seq_len r == k) = m) ∧
    (∀ r i, i < seq_len →
      (tf_process_episode ep seq_len (sample_start ep.length seq_len r))[i]?
        = (ep[sample_start ep.length seq_len r + i]?).map normalize_frame) := by
  refine ⟨?_, ?_, ?_, ?_⟩
  · intro r
    have h := Nat.mod_lt r
      (show 0 < max_start_idx ep.length seq_len + 1 from Nat.succ_pos _)
    simp only [sample_start, tf_random_uniform, max_start_idx] at h ⊢
    omega
  · intro k hk
    refine ⟨k, ?_⟩
    simp only [sample_start, tf_random_uniform, max_start_idx]
    exact Nat.mod_eq_of_lt (by omega)
  · intro k hk m
    have h := countP_mod_range (ep.length - seq_len + 1) k (by omega) m
    simp only [sample_start, tf_random_uniform, max_start_idx]
    exact h
  · intro r i hi
    simp [tf_process_episode, List.getElem?_take, hi, List.getElem?_drop,
      List.getElem?_map]

/-- C5 witness: a two-frame episode with seq_len 1 (offsets 0 and 1). -/
theorem C5_uniform_start_and_contiguous_slice_witness :
    (∀ r, sample_start 2 1 r ≤ 2 - 1) ∧
    (∀ k, k ≤ 2 - 1 → ∃ r, sample_start 2 1 r = k) ∧
    (∀ k, k ≤ 2 - 1 → ∀ m,
      (List.range ((2 - 1 + 1) * m)).countP (fun r => sample_start 2 1 r == k)
        = m) ∧
    (∀ r i, i < 1 →
      (tf_process_episode [[[[(0 : Fin 256)]]], [[[(1 : Fin 256)]]]] 1
          (sample_start 2 1 r))[i]?
        = ([[[[(0 : Fin 256)]]], [[[(1 : Fin 256)]]]] :
            Episode)[sample_start 2 1 r + i]?.map normalize_frame) := by
  have h := C5_uniform_start_and_contiguous_slice
    [[[[(0 : Fin 256)]]], [[[(1 : Fin 256)]]]] 1 (by decide)
  simpa using h

/-- C6: an episode shorter than `seq_len` fails the filter predicate, is
absent from the filtered stream, and no window of the pipeline's output
is sampled from it: every output window comes from some episode of
length at least `seq_len`, necessarily different from the short one. The
filter is silent — the pipeline is a total function into a window list,
with no error outcome. -/
theorem C6_short_episode_never_sampled
    (episodes : List Episode) (seq_len : Nat) (rng : Nat → Nat)
    (ep : Episode) (hshort : ep.length < seq_len) :
    filter_short_episodes seq_len ep = false ∧
    ep ∉ episodes.filter (filter_short_episodes seq_len) ∧
    (∀ w ∈ create_processed_dataset episodes seq_len rng,
      ∃ e, e ∈ episodes ∧ seq_len ≤ e.length ∧ e ≠ ep ∧
        ∃ r, w = tf_process_episode e seq_len (sample_start e.length seq_len r)) := by
  have hfil : filter_short_episodes seq_len ep = false := by
    simp only [filter_short_episodes, decide_eq_false_iff_not]
    omega
  refine ⟨hfil, ?_, ?_⟩
  · intro hmem
    have h := (List.mem_filter.mp hmem).2
    rw [hfil] at h
    cases h
  · intro w hw
    rw [create_processed_dataset] at hw
    rcases List.mem_map.mp hw with ⟨⟨i, e⟩, hpe, rfl⟩
    obtain ⟨hilt, heq⟩ := List.mem_enum hpe
    have hemem : e ∈ episodes.filter (filter_short_episodes seq_len) := by
      rw [heq]
      exact List.getElem_mem hilt
    obtain ⟨heps, htrue⟩ := List.mem_filter.mp hemem
    have helen : seq_len ≤ e.length := by
      simpa [filter_short_episodes] using htrue
    refine ⟨e, heps, helen, ?_, rng i, rfl⟩
    intro hEq
    rw [hEq] at helen
    omega

/-- C6 witness: an empty episode beside a one-frame episode, seq_len 1. -/
theorem C6_short_episode_never_sampled_witness :
    filter_short_episodes 1 [] = false ∧
    ([] : Episode) ∉ [([] : Episode), [[[[(0 : Fin 256)]]]]].filter
      (filter_short_episodes 1) ∧
    (∀ w ∈ create_processed_dataset [([] : Episode), [[[[(0 : Fin 256)]]]]] 1
        (fun _ => 0),
      ∃ e, e ∈ [([] : Episode), [[[[(0 : Fin 256)]]]]] ∧ 1 ≤ e.length ∧
        e ≠ ([] : Episode) ∧
        ∃ r, w = tf_process_episode e 1 (sample_start e.length 1 r)) :=
  C6_short_episode_never_sampled [([] : Episode), [[[[(0 : Fin 256)]]]]] 1
    (fun _ => 0) [] (by decide)

/-- C3: `get_dataloader` fails fatally — before any dataset is built or
any data read — when the path list is empty or when `global_batch_size`
is not divisible by the process count; when both preconditions hold it
proceeds with `per_process_batch_size = global_batch_size / num_processes`
and this process's shard of the paths. -/
theorem C3_get_dataloader_preflight
    (tfrecord_paths : List String)
    (global_batch_size process_id num_processes : Nat) :
    (tfrecord_paths = [] →
      get_dataloader tfrecord_paths global_batch_size process_id num_processes
        = .error .emptyPaths) ∧
    (tfrecord_paths ≠ [] → global_batch_size % num_processes ≠ 0 →
      get_dataloader tfrecord_paths global_batch_size process_id num_processes
        = .error .notDivisible) ∧
    (tfrecord_paths ≠ [] → global_batch_size % num_processes = 0 →
      get_dataloader tfrecord_paths global_batch_size process_id num_processes
        = .ok { per_process_batch_size := global_batch_size / num_processes
                shard_paths := shard num_processes process_id tfrecord_paths }) := by
  refine ⟨fun h => by simp [get_dataloader, h],
    fun h1 h2 => by simp [get_dataloader, h1, h2],
    fun h1 h2 => by simp [get_dataloader, h1, h2]⟩

/-- C3 witness: the spec's scenario, batch size 8 and 7 over 2 processes,
plus the empty-list error. -/
theorem C3_get_dataloader_preflight_witness :
    get_dataloader [] 8 0 2 = .error .emptyPaths ∧
    get_dataloader ["a"] 7 0 2 = .error .notDivisible ∧
    get_dataloader ["a", "b", "c"] 8 0 2
      = .ok { per_process_batch_size := 4, shard_paths := ["a", "c"] } :=
  ⟨(C3_get_dataloader_preflight [] 8 0 2).1 rfl,
   (C3_get_dataloader_preflight ["a"] 7 0 2).2.1 (by decide) (by decide),
   ((C3_get_dataloader_preflight ["a", "b", "c"] 8 0 2).2.2 (by decide)
      (by decide)).trans (by decide)⟩

theorem preprocess_video_fst (ffmpeg_run : FsPath → Except String ByteBuf)
    (in_filename output_path : FsPath) (target_width target_height : Nat) :
    (preprocess_video ffmpeg_run in_filename output_path
        target_width target_height).1.1 = in_filename := by
  cases hc : ffmpeg_run in_filename with
  | error e => simp [preprocess_video, hc]
  | ok out =>
    simp only [preprocess_video, hc]
    split_ifs <;> rfl

/-- C7: every transcode exception is caught inside its own task and
becomes the outcome (input_path, False) with no write; the pool is a map
over the inputs, so it completes over all of them in order and one
task's outcome cannot abort a sibling; the failure manifest contains
exactly the outcomes whose flag is False — among them every input whose
transcode raised — and is written to `<output_dir>/failed_videos.json`. -/
theorem C7_failure_isolation_and_manifest
    (ffmpeg_run : FsPath → Except String ByteBuf) (inputs : List FsPath)
    (output_path : FsPath) (target_width target_height : Nat) :
    ((run_pool ffmpeg_run inputs output_path target_width target_height).map
        (fun r => r.1.1) = inputs) ∧
    (∀ in_filename err, ffmpeg_run in_filename = .error err →
      preprocess_video ffmpeg_run in_filename output_path target_width
          target_height
        = ((in_filename, false), none)) ∧
    (∀ in_filename err, in_filename ∈ inputs →
      ffmpeg_run in_filename = .error err →
      (in_filename, false) ∈ failed_videos
        ((run_pool ffmpeg_run inputs output_path target_width
            target_height).map Prod.fst)) ∧
    (∀ entry ∈ failed_videos
        ((run_pool ffmpeg_run inputs output_path target_width
            target_height).map Prod.fst),
      entry.2 = false) ∧
    failed_videos_path output_path
      = output_path ++ '/' :: "failed_videos.json".data := by
  have hfail : ∀ in_filename err, ffmpeg_run in_filename = .error err →
      preprocess_video ffmpeg_run in_filename output_path target_width
          target_height
        = ((in_filename, false), none) := by
    intro f err herr
    simp [preprocess_video, herr]
  refine ⟨?_, hfail, ?_, ?_, rfl⟩
  · rw [run_pool, List.map_map]
    have hpt : ∀ a ∈ inputs,
        ((fun r => r.1.1) ∘ fun f =>
          preprocess_video ffmpeg_run f output_path target_width target_height) a
          = id a := fun a _ =>
      preprocess_video_fst ffmpeg_run a output_path target_width target_height
    rw [List.map_congr_left hpt, List.map_id]
  · intro f err hf herr
    apply List.mem_filter.mpr
    refine ⟨?_, by simp⟩
    rw [run_pool, List.map_map]
    refine List.mem_map.mpr ⟨f, hf, ?_⟩
    simp only [Function.comp_apply, hfail f err herr]
  · intro entry hent
    have h := (List.mem_filter.mp hent).2
    simpa using h

/-- C7 witness: a single input whose transcode raises. -/
theorem C7_failure_isolation_and_manifest_witness :
    (run_pool (fun _ => .error "boom") ["a.mp4".data] "out".data 1 1).map
        (fun r => r.1.1) = ["a.mp4".data] ∧
    ("a.mp4".data, false) ∈ failed_videos
      ((run_pool (fun _ => .error "boom") ["a.mp4".data] "out".data 1 1).map
        Prod.fst) :=
  ⟨(C7_failure_isolation_and_manifest (fun _ => .error "boom") ["a.mp4".data]
      "out".data 1 1).1,
   (C7_failure_isolation_and_manifest (fun _ => .error "boom") ["a.mp4".data]
      "out".data 1 1).2.2.1 "a.mp4".data "boom" (by decide) rfl⟩

/-- C8: on a successful transcode whose byte count is an exact positive
multiple of height*width*3, the frame count is the byte count divided by
height*width*3 (derived, never assumed), the saved array has shape
(n_frames, height, width, 3) with the decoded uint8 bytes as contents,
and the write path is
`<output_root>/<fps>fps_<width>x<height>/<basename-without-extension>.npy`. -/
theorem C8_success_shape_and_path
    (ffmpeg_run : FsPath → Except String ByteBuf)
    (in_filename output_path output_root : FsPath)
    (target_width target_height target_fps : Nat) (out : ByteBuf)
    (hok : ffmpeg_run in_filename = .ok out)
    (hpos : 0 < target_height * target_width * 3)
    (hdvd : (target_height * target_width * 3) ∣ out.length) :
    preprocess_video ffmpeg_run in_filename output_path target_width
        target_height
      = ((in_filename, true),
          some (output_file output_path in_filename,
            ⟨[out.length / (target_height * target_width * 3),
              target_height, target_width, 3], out⟩)) ∧
    output_file (run_output_path output_root target_fps target_width
        target_height) in_filename
      = output_root ++ '/' ::
          ((Nat.toDigits 10 target_fps ++ "fps_".data
            ++ Nat.toDigits 10 target_width ++ "x".data
            ++ Nat.toDigits 10 target_height)
          ++ '/' :: (splitextRoot (basename in_filename) ++ ".npy".data)) := by
  constructor
  · have hmul : out.length / (target_height * target_width * 3)
        * (target_height * target_width * 3) = out.length :=
      Nat.div_mul_cancel hdvd
    simp only [preprocess_video, hok]
    rw [if_neg (by omega), if_pos hmul.symm]
  · simp [output_file, run_output_path, joinPath]

/-- C8 witness: a 3-byte decode at 1×1 resolution gives one 1×1×3 frame
saved at `out/v.npy`. -/
theorem C8_success_shape_and_path_witness :
    preprocess_video (fun _ => .ok [0, 0, 0]) "a/v.mp4".data "out".data 1 1
      = (("a/v.mp4".data, true),
          some ("out/v.npy".data, ⟨[1, 1, 1, 3], [0, 0, 0]⟩)) :=
  ((C8_success_shape_and_path (fun _ => .ok [0, 0, 0]) "a/v.mp4".data
      "out".data "root".data 1 1 10 [0, 0, 0] rfl (by decide)
      (by decide)).1).trans (by decide)

/-- C9: when the decoded byte count is not an exact multiple of
height*width*3, the reshape inside the try block fails, the per-item
handler catches it, the outcome is (input_path, False), and no output
file is written — the buffer is never silently truncated to whole
frames. -/
theorem C9_nonmultiple_byte_count_fails
    (ffmpeg_run : FsPath → Except String ByteBuf)
    (in_filename output_path : FsPath) (target_width target_height : Nat)
    (out : ByteBuf) (hok : ffmpeg_run in_filename = .ok out)
    (hnd : ¬ (target_height * target_width * 3) ∣ out.length) :
    preprocess_video ffmpeg_run in_filename output_path target_width
        target_height
      = ((in_filename, false), none) := by
  simp only [preprocess_video, hok]
  by_cases h0 : target_height * target_width * 3 = 0
  · rw [if_pos h0]
  · rw [if_neg h0, if_neg ?_]
    intro heq
    exact hnd ⟨out.length / (target_height * target_width * 3),
      by rw [Nat.mul_comm]; exact heq⟩

/-- C9 witness: 2 decoded bytes at 1×1 resolution (frame size 3). -/
theorem C9_nonmultiple_byte_count_fails_witness :
    preprocess_video (fun _ => .ok [0, 0]) "a/v.mp4".data "out".data 1 1
      = (("a/v.mp4".data, false), none) :=
  C9_nonmultiple_byte_count_fails (fun _ => .ok [0, 0]) "a/v.mp4".data
    "out".data 1 1 [0, 0] rfl (by decide)

/-- C10: the transcoder's output path depends only on the output
directory and the input's base name stripped of its extension, so two
distinct inputs with equal stems — such as a .mp4 and a .webm of the
same name — are written to the same output file, and one normalized
episode overwrites the other. -/
theorem C10_output_path_collision
    (output_path a b : FsPath)
    (hstem : splitextRoot (basename a) = splitextRoot (basename b)) :
    output_file output_path a = output_file output_path b := by
  rw [output_file, output_file, hstem]

/-- C10 witness: `dir/video.mp4` and `dir/video.webm` collide. -/
theorem C10_output_path_collision_witness :
    output_file "out".data "dir/video.mp4".data
      = output_file "out".data "dir/video.webm".data :=
  C10_output_path_collision "out".data "dir/video.mp4".data
    "dir/video.webm".data (by decide)

end Jafar
